import Mathlib

/-!
# Shallow embedding of `sqlite-wrapper.js`

This file embeds the core of the `SQLiteWrapper` class (`src/index.js`),
its pure helpers (`src/utils.js`) and the sentinel constants
(`src/constants.js`, whose content appears alongside `src/utils.d.ts`)
into Lean 4, and proves the specification claims about them.

The wrapper's single-threaded, event-driven behaviour is modelled as a
pure step function over an explicit state record; JavaScript promise
settlements are recorded in an append-only log.  `node:os`'s `EOL` is
modelled as `"\n"` (the POSIX value used by the repository's tests).
-/

namespace SQLiteWrapperJS

/-- `os.EOL`, modelled as the POSIX line terminator. -/
def EOL : String := "\n"

/-- The character class matched by JavaScript's `\s` (and trimmed by
`String.prototype.trim`): ASCII whitespace plus the Unicode space
separators, line separators and the BOM. -/
def isJsWs (c : Char) : Bool :=
  c == ' ' || c == '\t' || c == '\n' || c == '\r' ||
  c == '\x0b' || c == '\x0c' || c == '\u00A0' || c == '\u1680' ||
  ('\u2000' ≤ c && c ≤ '\u200A') || c == '\u2028' || c == '\u2029' ||
  c == '\u202F' || c == '\u205F' || c == '\u3000' || c == '\uFEFF'

/-- `String.prototype.trim` on a character list: drop leading and
trailing JavaScript whitespace. -/
def jsTrimL (l : List Char) : List Char :=
  ((l.dropWhile isJsWs).reverse.dropWhile isJsWs).reverse

/-- `String.prototype.trim`. -/
def jsTrim (s : String) : String :=
  String.mk (jsTrimL s.data)

/-- `.replace(/\s+/g, " ")` on a character list: every maximal nonempty
run of whitespace becomes a single space. -/
def collapseWsL : List Char → List Char
  | [] => []
  | c :: rest =>
    if isJsWs c then
      match rest with
      | r0 :: _ => if isJsWs r0 then collapseWsL rest else ' ' :: collapseWsL rest
      | [] => [' ']
    else c :: collapseWsL rest

/-- Strip the maximal trailing run of `';'` characters.  JavaScript's
`.replace(/;*$/, ";")` replaces exactly this run (the first — hence the
end-anchored — match) with a single `';'`. -/
def dropTrailingSemisL (l : List Char) : List Char :=
  (l.reverse.dropWhile (· == ';')).reverse

/-- `#formatSQLStatement` from `src/index.js`:
`sql.trim().replace(/;*$/, ";").replace(/\s+/g, " ")`. -/
def formatSQLStatement (sql : String) : String :=
  String.mk (collapseWsL (dropTrailingSemisL (jsTrimL sql.data) ++ [';']))

/-- The parameter values supported by `escapeValue` in `src/utils.js`
(the claims under proof exercise strings, `null`, integral numbers /
bigints and booleans; floats and `Date`s are rendered by the same
one-value-to-one-string scheme). -/
inductive Value where
  | vstr (s : String)
  | vnull
  | vint (n : Int)
  | vbool (b : Bool)
  deriving Repr, DecidableEq

/-- Double every single quote in a string body (JavaScript
`value.replace(/'/g, "''")`). -/
def escapeQuotes (s : String) : String :=
  String.mk (s.data.foldr
    (fun c acc => if c == '\'' then '\'' :: '\'' :: acc else c :: acc) [])

/-- `escapeValue` from `src/utils.js`. -/
def escapeValue : Value → String
  | .vstr s => "'" ++ escapeQuotes s ++ "'"
  | .vnull => "NULL"
  | .vint n => toString n
  | .vbool b => if b then "TRUE" else "FALSE"

/-- The replacement loop of `interpolateSQL`: walk the characters,
substituting each `'?'` with the escaped next parameter; throw
`"Too few parameters provided"` when a `'?'` is found and the
parameters are exhausted.  (JavaScript's `String.replace` with a global
regex substitutes matches left to right and never rescans the
replacement text.) -/
def interpolateGo : List Char → List Value → Except String String
  | [], _ => .ok ""
  | c :: rest, ps =>
    if c = '?' then
      match ps with
      | [] => .error "Too few parameters provided"
      | p :: tl => (interpolateGo rest tl).map (fun t => escapeValue p ++ t)
    else (interpolateGo rest ps).map (fun t => String.singleton c ++ t)

/-- `interpolateSQL` from `src/utils.js`, including its fast path:
`if (params.length === 0) return sql;`. -/
def interpolateSQL (sql : String) (params : List Value) : Except String String :=
  if params.length = 0 then .ok sql
  else interpolateGo sql.data params

/-- `END_SIGNAL` from `src/constants.js`. -/
def END_SIGNAL : String := "SELECT '__END__';" ++ EOL

/-- `END_MARKERS` from `src/constants.js` (a two-element set; here a
duplicate-free list). -/
def END_MARKERS : List String :=
  ["[\x7b\"'__END__'\":\"__END__\"\x7d]", "__END__"]

/-- The error taxonomy of the wrapper (each constructor corresponds to
one `new Error(...)` site in `src/index.js` / `src/utils.js`). -/
inductive SQLiteError where
  | closedWrapper                  -- "SQLite wrapper is closed"
  | procUnavailable                -- "SQLite process is not available"
  | paramError (msg : String)      -- thrown by interpolateSQL / escapeValue
  | statementError (text : String) -- "SQLite error: <stderr text>"
  | fatalProcess                   -- "SQLite process fatal error: ..."
  | closing                        -- "SQLite wrapper is closing"
  | timedOut                       -- "SQL operation timeout after ..."
  | parseError (excerpt : String)  -- "Invalid JSON response from SQLite: ..."
  deriving Repr, DecidableEq

/-- How a promise callback was invoked. -/
inductive Outcome where
  | ok (result : String)
  | err (e : SQLiteError)
  deriving Repr, DecidableEq

/-- Which code path performed a settlement. -/
inductive SettleKind where
  | sentinel   -- #finalizeCurrent (sentinel-driven completion)
  | fatalK     -- #handleFatalError
  | closeK     -- close()
  | timeoutK   -- the per-operation setTimeout callback
  | gateK      -- #checkIfClosed throwing inside exec/query/batch
  | paramK     -- interpolateSQL throwing inside the promise executor
  | writeK     -- stdin write failure in #maybeProcessNext
  deriving Repr, DecidableEq

/-- One invocation of a resolve/reject callback, as recorded in the
settlement log.  The first settlement logged for a given `id` is the
outcome the caller's promise actually delivers; JavaScript promises
ignore later invocations. -/
structure Settlement where
  id : Nat
  outcome : Outcome
  kind : SettleKind
  deriving Repr, DecidableEq

/-- A `QueueTask` from `src/index.js` (`sql` is already interpolated;
the resolve/reject callbacks are represented by the task id, against
which settlements are logged). -/
structure Task where
  id : Nat
  sql : String
  isRaw : Bool
  deriving Repr, DecidableEq

/-- The private state of a `SQLiteWrapper` instance, plus the
observables of its interaction: `writes` (everything written to the
child's stdin) and `log` (every resolve/reject callback invocation).
`nextId` numbers operations in call order. -/
structure WState where
  queue : List Task
  current : Option Task
  closed : Bool
  stdoutBuffer : String
  stderrBuffer : String
  modeIsSet : Bool
  procAlive : Bool
  pendingRejections : List Nat
  writes : List String
  log : List Settlement
  nextId : Nat
  deriving Repr, DecidableEq

/-- The state right after the constructor spawned the process. -/
def initState : WState :=
  { queue := [], current := none, closed := false, stdoutBuffer := "",
    stderrBuffer := "", modeIsSet := false, procAlive := true,
    pendingRejections := [], writes := [], log := [], nextId := 0 }

/-- The ids of the current task, as a (zero- or one-element) list. -/
def curIds (s : WState) : List Nat := (s.current.map Task.id).toList

/-- Invoke a task's wrapped resolve/reject callback (`operation.resolve`
/ `operation.reject` in `#enqueueOperation`): clears the timeout,
removes the raw reject from `#pendingRejections`, and invokes the raw
promise callback (logged). -/
def settleOp (s : WState) (i : Nat) (o : Outcome) (k : SettleKind) : WState :=
  { s with pendingRejections := s.pendingRejections.erase i,
           log := s.log ++ [⟨i, o, k⟩] }

/-- Invoke a raw promise callback directly (no bookkeeping), as
`close()` and `#handleFatalError` do with the functions stored in
`#pendingRejections`, and as the timeout callback does. -/
def settleRaw (s : WState) (i : Nat) (o : Outcome) (k : SettleKind) : WState :=
  { s with log := s.log ++ [⟨i, o, k⟩] }

/-- `#maybeProcessNext`: dispatch the head of the queue when idle.  The
stdin write is modelled as always succeeding (the write-failure branch
rejects the dequeued task and retries; no claim exercises it). -/
def maybeProcessNext (s : WState) : WState :=
  if s.closed then s else
  match s.current, s.queue with
  | some _, _ => s
  | none, [] => s
  | none, t :: rest =>
    let statement := if t.isRaw then t.sql else formatSQLStatement t.sql
    { s with queue := rest, current := some t,
             writes := s.writes ++ [statement ++ EOL ++ END_SIGNAL ++ EOL] }

/-- `#finalizeCurrent`: settle the current task from the accumulated
output/error text, clear both accumulators, and dispatch the next
request.  A finalization with no current task is a no-op. -/
def finalizeCurrent (s : WState) : WState :=
  match s.current with
  | none => s
  | some t =>
    let result := jsTrim s.stdoutBuffer
    let errText := jsTrim s.stderrBuffer
    let s1 := { s with stdoutBuffer := "", stderrBuffer := "", current := none }
    let s2 :=
      if errText = "" then settleOp s1 t.id (.ok result) .sentinel
      else settleOp s1 t.id (.err (.statementError errText)) .sentinel
    maybeProcessNext s2

/-- `#handleLine` (its argument is the already-trimmed line): a
recognized sentinel finalizes the current operation, anything else is
appended to the stdout accumulator with a line terminator. -/
def handleLine (s : WState) (line : String) : WState :=
  if line ∈ END_MARKERS then finalizeCurrent s
  else { s with stdoutBuffer := s.stdoutBuffer ++ line ++ EOL }

/-- The readline `line` handler: `(line) => this.#handleLine(line.trim())`. -/
def processLine (s : WState) (raw : String) : WState :=
  handleLine s (jsTrim raw)

/-- The stderr `data` handler: `this.#stderrBuffer += chunk.toString()`. -/
def stderrData (s : WState) (chunk : String) : WState :=
  { s with stderrBuffer := s.stderrBuffer ++ chunk }

/-- `#handleFatalError`: if not already closed, mark closed, reject the
current task (wrapped callback), reject every queued task (wrapped
callbacks), clear the queue, invoke every remaining raw rejection in
`#pendingRejections`, clear it, and release the process (`#cleanup`). -/
def handleFatalError (s : WState) : WState :=
  if s.closed then s else
  let s1 := { s with closed := true }
  let s2 :=
    match s1.current with
    | none => s1
    | some t => settleOp { s1 with current := none } t.id (.err .fatalProcess) .fatalK
  let s3 := s2.queue.foldl
    (fun acc t => settleOp acc t.id (.err .fatalProcess) .fatalK) s2
  let s4 := { s3 with queue := [] }
  let s5 := s4.pendingRejections.foldl
    (fun acc i => settleRaw acc i (.err .fatalProcess) .fatalK) s4
  { s5 with pendingRejections := [], procAlive := false }

/-- `close()`: a no-op when already closed; otherwise mark closed,
invoke every raw rejection in `#pendingRejections` with the closing
error, clear it and the queue, write the polite `.exit` command, and
drop the process handle. -/
def closeW (s : WState) : WState :=
  if s.closed then s else
  let s1 := { s with closed := true }
  let s2 := s1.pendingRejections.foldl
    (fun acc i => settleRaw acc i (.err .closing) .closeK) s1
  { s2 with pendingRejections := [], queue := [],
            writes := s2.writes ++ [".exit" ++ EOL], procAlive := false }

/-- `#checkIfClosed`, as the error it throws (if any). -/
def checkIfClosed (s : WState) : Option SQLiteError :=
  if s.closed then some .closedWrapper
  else if !s.procAlive then some .procUnavailable
  else none

/-- `#enqueueOperation`: interpolate unless raw (a throw inside the
promise executor rejects the promise before the task is ever queued),
register the rejection, append the task, and try to dispatch. -/
def enqueueOperation (s : WState) (sql : String) (params : List Value)
    (isRaw : Bool) : WState :=
  let i := s.nextId
  let s1 := { s with nextId := i + 1 }
  match (if isRaw then Except.ok sql else interpolateSQL sql params) with
  | .error msg => settleRaw s1 i (.err (.paramError msg)) .paramK
  | .ok itext =>
    let s2 := { s1 with pendingRejections := s1.pendingRejections ++ [i],
                        queue := s1.queue ++ [⟨i, itext, isRaw⟩] }
    maybeProcessNext s2

/-- Run an enqueueing action behind the `#checkIfClosed` gate: a throw
in the async method body rejects the caller immediately, without
touching the process, the queue or the buffers. -/
def gated (s : WState) (act : WState → WState) : WState :=
  match checkIfClosed s with
  | some e => { s with nextId := s.nextId + 1,
                       log := s.log ++ [⟨s.nextId, .err e, .gateK⟩] }
  | none => act s

/-- The shared front of `exec`, `query` and `batch`: `#checkIfClosed`,
then `#enqueueSQL`. -/
def execEv (s : WState) (sql : String) (params : List Value) : WState :=
  gated s (fun s => enqueueOperation s sql params false)

/-- The internal mode-set path of `query`: `#checkIfClosed`, then
`#enqueueCommand` (raw, without interpolation). -/
def cmdEv (s : WState) (c : String) : WState :=
  gated s (fun s => enqueueOperation s c [] true)

/-- The per-operation `setTimeout` callback: invoke the raw reject and
remove it from `#pendingRejections`.  The timer fires at most once and
only if the wrapped resolve/reject (which calls `clearTimeout`) has not
run, which is exactly when the raw reject is still registered. -/
def timeoutFire (s : WState) (i : Nat) : WState :=
  if i ∈ s.pendingRejections then
    { s with log := s.log ++ [⟨i, .err .timedOut, .timeoutK⟩],
             pendingRejections := s.pendingRejections.erase i }
  else s

/-- The post-processing `query` applies to the raw text of a successful
`#enqueueSQL`: blank text yields the empty row list; otherwise
`JSON.parse` (abstracted as `parseJson`), with a failure surfaced as a
parse error carrying `raw.substring(0, 200)`. -/
def queryPostprocess {α : Type} (parseJson : String → Option (List α))
    (raw : String) : Except SQLiteError (List α) :=
  if jsTrim raw = "" then .ok []
  else
    match parseJson raw with
    | some rows => .ok rows
    | none => .error (.parseError (raw.take 200))

/-- The external events driving the wrapper (all state transitions
happen synchronously inside the corresponding handler, per the
single-threaded event-loop model). -/
inductive Event where
  | exec (sql : String) (params : List Value)
  | cmd (c : String)
  | line (raw : String)
  | stderr (chunk : String)
  | fatal
  | close
  | timeout (i : Nat)
  deriving Repr, DecidableEq

/-- One event-loop turn.  `line`/`stderr` events cannot be delivered
once the wrapper is closed, because both `close()` and `#cleanup` close
the readline interface and kill the process. -/
def step (s : WState) : Event → WState
  | .exec sql ps => execEv s sql ps
  | .cmd c => cmdEv s c
  | .line raw => if s.closed then s else processLine s raw
  | .stderr chunk => if s.closed then s else stderrData s chunk
  | .fatal => handleFatalError s
  | .close => closeW s
  | .timeout i => timeoutFire s i

/-- Run a trace of events from the freshly constructed wrapper. -/
def run (tr : List Event) : WState := tr.foldl step initState

/-- The ids settled by sentinel-driven completion, in settlement order. -/
def sentinelIds (l : List Settlement) : List Nat :=
  (l.filter (fun e => e.kind == SettleKind.sentinel)).map Settlement.id

/-- The outcome a caller's promise delivers: the first settlement logged
for its id (later invocations are ignored by the promise). -/
def promiseOutcome (l : List Settlement) (i : Nat) : Option Outcome :=
  (l.find? (fun e => e.id == i)).map Settlement.outcome

/-- The ids of all unsettled tasks held by the wrapper: the current one
(if any) followed by the queued ones, in enqueue order. -/
def stateIds (s : WState) : List Nat := curIds s ++ s.queue.map Task.id

/-- The number of positional `'?'` placeholders in a statement template. -/
def countQMarks (sql : String) : Nat := sql.data.count '?'

/-- The raw rejections left in `#pendingRejections` when
`#handleFatalError` reaches its final loop: those of the current and
queued tasks have been deleted by their wrapped reject callbacks. -/
def fatalPrRemainder (s : WState) : List Nat :=
  s.queue.foldl (fun pr t => pr.erase t.id)
    (match s.current with
     | none => s.pendingRejections
     | some t => s.pendingRejections.erase t.id)

section StructuralLemmas

lemma sentinelIds_append (l₁ l₂ : List Settlement) :
    sentinelIds (l₁ ++ l₂) = sentinelIds l₁ ++ sentinelIds l₂ := by
  simp [sentinelIds, List.filter_append]

lemma sentinelIds_map_const (is : List Nat) (o : Outcome) (k : SettleKind)
    (h : k ≠ SettleKind.sentinel) :
    sentinelIds (is.map (fun i => ⟨i, o, k⟩)) = [] := by
  induction is with
  | nil => rfl
  | cons i is ih => simpa [sentinelIds, List.filter_cons, h] using ih

lemma maybeProcessNext_stateIds (s : WState) :
    stateIds (maybeProcessNext s) = stateIds s := by
  unfold maybeProcessNext
  split
  · rfl
  · split <;> simp_all [stateIds, curIds]

lemma maybeProcessNext_log (s : WState) :
    (maybeProcessNext s).log = s.log := by
  unfold maybeProcessNext
  split
  · rfl
  · split <;> rfl

lemma maybeProcessNext_pr (s : WState) :
    (maybeProcessNext s).pendingRejections = s.pendingRejections := by
  unfold maybeProcessNext
  split
  · rfl
  · split <;> rfl

lemma maybeProcessNext_nextId (s : WState) :
    (maybeProcessNext s).nextId = s.nextId := by
  unfold maybeProcessNext
  split
  · rfl
  · split <;> rfl

lemma maybeProcessNext_closed (s : WState) :
    (maybeProcessNext s).closed = s.closed := by
  unfold maybeProcessNext
  split
  · rfl
  · split <;> rfl

lemma maybeProcessNext_stdout (s : WState) :
    (maybeProcessNext s).stdoutBuffer = s.stdoutBuffer := by
  unfold maybeProcessNext
  split
  · rfl
  · split <;> rfl

lemma maybeProcessNext_stderr (s : WState) :
    (maybeProcessNext s).stderrBuffer = s.stderrBuffer := by
  unfold maybeProcessNext
  split
  · rfl
  · split <;> rfl

@[simp] lemma settleOp_queue (s : WState) (i : Nat) (o : Outcome) (k : SettleKind) :
    (settleOp s i o k).queue = s.queue := rfl

@[simp] lemma settleOp_current (s : WState) (i : Nat) (o : Outcome) (k : SettleKind) :
    (settleOp s i o k).current = s.current := rfl

@[simp] lemma settleOp_closed (s : WState) (i : Nat) (o : Outcome) (k : SettleKind) :
    (settleOp s i o k).closed = s.closed := rfl

@[simp] lemma settleOp_pr (s : WState) (i : Nat) (o : Outcome) (k : SettleKind) :
    (settleOp s i o k).pendingRejections = s.pendingRejections.erase i := rfl

@[simp] lemma settleOp_log (s : WState) (i : Nat) (o : Outcome) (k : SettleKind) :
    (settleOp s i o k).log = s.log ++ [⟨i, o, k⟩] := rfl

@[simp] lemma settleOp_nextId (s : WState) (i : Nat) (o : Outcome) (k : SettleKind) :
    (settleOp s i o k).nextId = s.nextId := rfl

@[simp] lemma settleRaw_queue (s : WState) (i : Nat) (o : Outcome) (k : SettleKind) :
    (settleRaw s i o k).queue = s.queue := rfl

@[simp] lemma settleRaw_current (s : WState) (i : Nat) (o : Outcome) (k : SettleKind) :
    (settleRaw s i o k).current = s.current := rfl

@[simp] lemma settleRaw_closed (s : WState) (i : Nat) (o : Outcome) (k : SettleKind) :
    (settleRaw s i o k).closed = s.closed := rfl

@[simp] lemma settleRaw_pr (s : WState) (i : Nat) (o : Outcome) (k : SettleKind) :
    (settleRaw s i o k).pendingRejections = s.pendingRejections := rfl

@[simp] lemma settleRaw_log (s : WState) (i : Nat) (o : Outcome) (k : SettleKind) :
    (settleRaw s i o k).log = s.log ++ [⟨i, o, k⟩] := rfl

@[simp] lemma settleRaw_nextId (s : WState) (i : Nat) (o : Outcome) (k : SettleKind) :
    (settleRaw s i o k).nextId = s.nextId := rfl

lemma sentinelIds_singleton_ne (i : Nat) (o : Outcome) (k : SettleKind)
    (h : k ≠ SettleKind.sentinel) : sentinelIds [⟨i, o, k⟩] = [] := by
  simp [sentinelIds, List.filter_cons, h]

lemma foldl_settleOp_spec (o : Outcome) (k : SettleKind) :
    ∀ (ts : List Task) (s : WState),
    ts.foldl (fun acc t => settleOp acc t.id o k) s
      = { s with
          pendingRejections := ts.foldl (fun pr t => pr.erase t.id) s.pendingRejections,
          log := s.log ++ ts.map (fun t => ⟨t.id, o, k⟩) }
  | [], s => by cases s; simp
  | t :: ts, s => by
      simp only [List.foldl_cons, List.map_cons]
      rw [foldl_settleOp_spec o k ts]
      cases s
      simp [settleOp]

lemma foldl_settleRaw_spec (o : Outcome) (k : SettleKind) :
    ∀ (is : List Nat) (s : WState),
    is.foldl (fun acc i => settleRaw acc i o k) s
      = { s with log := s.log ++ is.map (fun i => ⟨i, o, k⟩) }
  | [], s => by cases s; simp
  | i :: is, s => by
      simp only [List.foldl_cons, List.map_cons]
      rw [foldl_settleRaw_spec o k is]
      cases s
      simp [settleRaw]

lemma handleFatalError_eq (s : WState) (h : s.closed = false) :
    handleFatalError s =
      { s with closed := true, current := none, queue := [],
               pendingRejections := [], procAlive := false,
               log := s.log
                 ++ (curIds s).map (fun i => ⟨i, .err .fatalProcess, .fatalK⟩)
                 ++ s.queue.map (fun t => ⟨t.id, .err .fatalProcess, .fatalK⟩)
                 ++ (fatalPrRemainder s).map
                      (fun i => ⟨i, .err .fatalProcess, .fatalK⟩) } := by
  unfold handleFatalError
  rw [h]
  simp only [Bool.false_eq_true, if_false]
  cases hc : s.current with
  | none =>
      simp only [hc]
      rw [foldl_settleOp_spec, foldl_settleRaw_spec]
      cases s with
      | mk queue current closed so se m p pr w l n =>
          simp_all [fatalPrRemainder, curIds]
  | some t =>
      simp only [hc]
      rw [foldl_settleOp_spec, foldl_settleRaw_spec]
      cases s with
      | mk queue current closed so se m p pr w l n =>
          simp_all [fatalPrRemainder, curIds, settleOp]

lemma closeW_eq (s : WState) (h : s.closed = false) :
    closeW s =
      { s with closed := true, queue := [], pendingRejections := [],
               procAlive := false,
               writes := s.writes ++ [".exit" ++ EOL],
               log := s.log
                 ++ s.pendingRejections.map (fun i => ⟨i, .err .closing, .closeK⟩) } := by
  unfold closeW
  rw [h]
  simp only [Bool.false_eq_true, if_false]
  rw [foldl_settleRaw_spec]

lemma closeW_closed (s : WState) : (closeW s).closed = true := by
  cases h : s.closed
  · rw [closeW_eq s h]
  · unfold closeW
    simp [h]

end StructuralLemmas

section Invariant

/-- The bookkeeping invariant of a reachable wrapper state: sentinel
finalizations so far, the current task and the queued tasks carry
strictly increasing ids (ids are assigned in call order, so this is the
FIFO discipline); `#pendingRejections` holds a duplicate-free subset of
the unsettled tasks' ids; a closed wrapper holds no queued task and no
pending rejection; fresh ids dominate everything recorded. -/
structure Inv (s : WState) : Prop where
  chain : (sentinelIds s.log ++ stateIds s).Pairwise (· < ·)
  idsLt : ∀ i ∈ stateIds s, i < s.nextId
  prLt : ∀ i ∈ s.pendingRejections, i < s.nextId
  logLt : ∀ e ∈ s.log, e.id < s.nextId
  prSub : s.pendingRejections ⊆ stateIds s
  prNodup : s.pendingRejections.Nodup
  closedState : s.closed = true → s.queue = [] ∧ s.pendingRejections = []
  noCloseK : s.closed = false → ∀ e ∈ s.log, e.kind ≠ SettleKind.closeK

lemma mem_sentinelIds {l : List Settlement} {i : Nat} (h : i ∈ sentinelIds l) :
    ∃ e ∈ l, e.id = i := by
  simp only [sentinelIds, List.mem_map, List.mem_filter] at h
  obtain ⟨e, ⟨he, _⟩, hid⟩ := h
  exact ⟨e, he, hid⟩

lemma inv_initState : Inv initState := by
  constructor <;> simp [initState, stateIds, curIds, sentinelIds]

lemma inv_maybeProcessNext {s : WState} (hInv : Inv s) :
    Inv (maybeProcessNext s) := by
  constructor
  · rw [maybeProcessNext_log, maybeProcessNext_stateIds]; exact hInv.chain
  · rw [maybeProcessNext_stateIds, maybeProcessNext_nextId]; exact hInv.idsLt
  · rw [maybeProcessNext_pr, maybeProcessNext_nextId]; exact hInv.prLt
  · rw [maybeProcessNext_log, maybeProcessNext_nextId]; exact hInv.logLt
  · rw [maybeProcessNext_pr, maybeProcessNext_stateIds]; exact hInv.prSub
  · rw [maybeProcessNext_pr]; exact hInv.prNodup
  · intro h
    rw [maybeProcessNext_closed] at h
    rcases hInv.closedState h with ⟨hq, hpr⟩
    rw [maybeProcessNext_pr]
    refine ⟨?_, hpr⟩
    unfold maybeProcessNext
    simp [h, hq]
  · intro h
    rw [maybeProcessNext_closed] at h
    rw [maybeProcessNext_log]
    exact hInv.noCloseK h

lemma inv_settleFresh {s : WState} (hInv : Inv s) (o : Outcome) (k : SettleKind)
    (hk : k ≠ SettleKind.sentinel) (hk2 : k ≠ SettleKind.closeK) :
    Inv { s with nextId := s.nextId + 1, log := s.log ++ [⟨s.nextId, o, k⟩] } := by
  have hsent : sentinelIds (s.log ++ [⟨s.nextId, o, k⟩]) = sentinelIds s.log := by
    rw [sentinelIds_append]
    have : sentinelIds [⟨s.nextId, o, k⟩] = [] := by
      simp [sentinelIds, List.filter_cons, hk]
    rw [this, List.append_nil]
  constructor
  · show ((sentinelIds (s.log ++ _)) ++ stateIds s).Pairwise (· < ·)
    rw [hsent]; exact hInv.chain
  · exact fun i hi => Nat.lt_succ_of_lt (hInv.idsLt i hi)
  · exact fun i hi => Nat.lt_succ_of_lt (hInv.prLt i hi)
  · intro e he
    rcases List.mem_append.1 he with h | h
    · exact Nat.lt_succ_of_lt (hInv.logLt e h)
    · simp only [List.mem_singleton] at h
      subst h
      exact Nat.lt_succ_self _
  · exact hInv.prSub
  · exact hInv.prNodup
  · exact hInv.closedState
  · intro h e he
    rcases List.mem_append.1 he with h1 | h1
    · exact hInv.noCloseK h e h1
    · simp only [List.mem_singleton] at h1
      subst h1
      exact hk2

lemma sentinelIds_lt {s : WState} (hInv : Inv s) {i : Nat}
    (h : i ∈ sentinelIds s.log) : i < s.nextId := by
  obtain ⟨e, he, hid⟩ := mem_sentinelIds h
  exact hid ▸ hInv.logLt e he

lemma inv_enqueueOperation {s : WState} (hInv : Inv s) (hc : s.closed = false)
    (sql : String) (ps : List Value) (isRaw : Bool) :
    Inv (enqueueOperation s sql ps isRaw) := by
  unfold enqueueOperation
  cases hres : (if isRaw then Except.ok sql else interpolateSQL sql ps) with
  | error msg =>
      show Inv { s with nextId := s.nextId + 1,
                        log := s.log ++ [⟨s.nextId, .err (.paramError msg), .paramK⟩] }
      exact inv_settleFresh hInv _ _ (by simp) (by simp)
  | ok itext =>
      apply inv_maybeProcessNext
      have hstate : stateIds { s with
            nextId := s.nextId + 1,
            pendingRejections := s.pendingRejections ++ [s.nextId],
            queue := s.queue ++ [⟨s.nextId, itext, isRaw⟩] }
          = stateIds s ++ [s.nextId] := by
        simp [stateIds, curIds]
      constructor
      · show (sentinelIds s.log ++ stateIds _).Pairwise (· < ·)
        rw [hstate, ← List.append_assoc]
        rw [List.pairwise_append]
        refine ⟨hInv.chain, by simp, ?_⟩
        intro a ha b hb
        simp only [List.mem_singleton] at hb
        subst hb
        rcases List.mem_append.1 ha with h | h
        · exact sentinelIds_lt hInv h
        · exact hInv.idsLt a h
      · rw [hstate]
        intro i hi
        rcases List.mem_append.1 hi with h | h
        · exact Nat.lt_succ_of_lt (hInv.idsLt i h)
        · simp only [List.mem_singleton] at h
          subst h
          exact Nat.lt_succ_self _
      · intro i hi
        rcases List.mem_append.1 hi with h | h
        · exact Nat.lt_succ_of_lt (hInv.prLt i h)
        · simp only [List.mem_singleton] at h
          subst h
          exact Nat.lt_succ_self _
      · exact fun e he => Nat.lt_succ_of_lt (hInv.logLt e he)
      · rw [hstate]
        exact List.append_subset.2
          ⟨hInv.prSub.trans (List.subset_append_left _ _),
           List.subset_append_right _ _⟩
      · rw [List.nodup_append]
        refine ⟨hInv.prNodup, List.nodup_singleton _, ?_⟩
        intro a ha hb
        simp only [List.mem_singleton] at hb
        subst hb
        exact absurd rfl (Nat.ne_of_lt (hInv.prLt _ ha))
      · intro h
        simp only at h
        rw [hc] at h
        cases h
      · intro _ e he
        exact hInv.noCloseK hc e he

lemma inv_settleCurrent {s : WState} {t : Task} (hInv : Inv s)
    (hcur : s.current = some t) (o : Outcome) :
    Inv (maybeProcessNext (settleOp
      { s with stdoutBuffer := "", stderrBuffer := "", current := none }
      t.id o .sentinel)) := by
  apply inv_maybeProcessNext
  have hold : stateIds s = t.id :: s.queue.map Task.id := by
    simp [stateIds, curIds, hcur]
  have hchain := hInv.chain
  rw [hold] at hchain
  constructor
  · simp only [settleOp_log, stateIds, curIds, settleOp_current, settleOp_queue]
    rw [sentinelIds_append]
    have h1 : sentinelIds [(⟨t.id, o, .sentinel⟩ : Settlement)] = [t.id] := by
      simp [sentinelIds, List.filter_cons]
    rw [h1]
    simpa using hchain
  · intro i hi
    simp only [stateIds, curIds, settleOp_current, settleOp_queue, settleOp_nextId] at hi ⊢
    apply hInv.idsLt
    rw [hold]
    exact List.mem_cons_of_mem _ (by simpa using hi)
  · intro i hi
    simp only [settleOp_pr, settleOp_nextId] at hi ⊢
    exact hInv.prLt i (List.mem_of_mem_erase hi)
  · intro e he
    simp only [settleOp_log, settleOp_nextId] at he ⊢
    rcases List.mem_append.1 he with h | h
    · exact hInv.logLt e h
    · simp only [List.mem_singleton] at h
      subst h
      exact hInv.idsLt t.id (by rw [hold]; exact List.mem_cons_self _ _)
  · intro i hi
    simp only [stateIds, curIds, settleOp_current, settleOp_queue]
    simp only [settleOp_pr] at hi
    have hmem := (hInv.prNodup.mem_erase_iff).1 hi
    have h2 := hInv.prSub hmem.2
    rw [hold] at h2
    rcases List.mem_cons.1 h2 with h | h
    · exact absurd h hmem.1
    · simpa using h
  · exact hInv.prNodup.erase _
  · intro h
    simp only [settleOp_closed] at h
    rcases hInv.closedState h with ⟨hq, hpr⟩
    refine ⟨by simpa using hq, ?_⟩
    simp [hpr]
  · intro h e he
    simp only [settleOp_closed] at h
    simp only [settleOp_log] at he
    rcases List.mem_append.1 he with h1 | h1
    · exact hInv.noCloseK h e h1
    · simp only [List.mem_singleton] at h1
      subst h1
      simp

lemma inv_finalizeCurrent {s : WState} (hInv : Inv s) :
    Inv (finalizeCurrent s) := by
  unfold finalizeCurrent
  cases hcur : s.current with
  | none => exact hInv
  | some t =>
      simp only
      split
      · exact inv_settleCurrent hInv hcur _
      · exact inv_settleCurrent hInv hcur _

lemma inv_processLine {s : WState} (hInv : Inv s) (raw : String) :
    Inv (processLine s raw) := by
  unfold processLine handleLine
  split
  · exact inv_finalizeCurrent hInv
  · exact ⟨hInv.chain, hInv.idsLt, hInv.prLt, hInv.logLt, hInv.prSub,
      hInv.prNodup, hInv.closedState, hInv.noCloseK⟩

lemma foldl_erase_subset : ∀ (ts : List Task) (pr : List Nat),
    ts.foldl (fun pr t => pr.erase t.id) pr ⊆ pr
  | [], pr => fun _ h => h
  | t :: ts, pr => by
      intro i hi
      have h2 := foldl_erase_subset ts (pr.erase t.id) hi
      exact List.mem_of_mem_erase h2

lemma fatalPrRemainder_subset (s : WState) :
    fatalPrRemainder s ⊆ s.pendingRejections := by
  unfold fatalPrRemainder
  cases s.current with
  | none => exact foldl_erase_subset _ _
  | some t =>
      intro i hi
      exact List.mem_of_mem_erase (foldl_erase_subset _ _ hi)

lemma sentinelIds_eq_nil : ∀ {l : List Settlement},
    (∀ e ∈ l, e.kind ≠ SettleKind.sentinel) → sentinelIds l = []
  | [], _ => rfl
  | e :: es, h => by
      have h1 : (e.kind == SettleKind.sentinel) = false := by
        simpa using h e (List.mem_cons_self _ _)
      have h2 := sentinelIds_eq_nil (fun x hx => h x (List.mem_cons_of_mem _ hx))
      simp only [sentinelIds, List.filter_cons, h1] at h2 ⊢
      simpa using h2

lemma inv_handleFatalError {s : WState} (hInv : Inv s) :
    Inv (handleFatalError s) := by
  cases hc : s.closed with
  | true =>
      have hid : handleFatalError s = s := by
        unfold handleFatalError
        simp [hc]
      rw [hid]
      exact hInv
  | false =>
      rw [handleFatalError_eq s hc]
      have hnil1 : sentinelIds ((curIds s).map
          (fun i => (⟨i, .err .fatalProcess, .fatalK⟩ : Settlement))) = [] := by
        apply sentinelIds_eq_nil
        intro e he
        rcases List.mem_map.1 he with ⟨j, _, rfl⟩
        simp
      have hnil2 : sentinelIds (s.queue.map
          (fun t => (⟨t.id, .err .fatalProcess, .fatalK⟩ : Settlement))) = [] := by
        apply sentinelIds_eq_nil
        intro e he
        rcases List.mem_map.1 he with ⟨t, _, rfl⟩
        simp
      have hnil3 : sentinelIds ((fatalPrRemainder s).map
          (fun i => (⟨i, .err .fatalProcess, .fatalK⟩ : Settlement))) = [] := by
        apply sentinelIds_eq_nil
        intro e he
        rcases List.mem_map.1 he with ⟨j, _, rfl⟩
        simp
      constructor
      · simp only [sentinelIds_append, hnil1, hnil2, hnil3, List.append_nil]
        simp [stateIds, curIds]
        exact hInv.chain.sublist (List.sublist_append_left _ _)
      · intro j hj
        simp [stateIds, curIds] at hj
      · intro j hj
        simp at hj
      · intro e he
        simp only [List.append_assoc, List.mem_append, List.mem_map] at he
        rcases he with h | ⟨j, hj, rfl⟩ | ⟨t, ht, rfl⟩ | ⟨j, hj, rfl⟩
        · exact hInv.logLt e h
        · exact hInv.idsLt j (List.mem_append.2 (Or.inl hj))
        · exact hInv.idsLt t.id
            (List.mem_append.2 (Or.inr (List.mem_map_of_mem _ ht)))
        · exact hInv.prLt j (fatalPrRemainder_subset s hj)
      · intro j hj
        simp at hj
      · exact List.nodup_nil
      · exact fun _ => ⟨rfl, rfl⟩
      · intro h
        simp at h

lemma inv_closeW {s : WState} (hInv : Inv s) : Inv (closeW s) := by
  cases hc : s.closed with
  | true =>
      have hid : closeW s = s := by
        unfold closeW
        simp [hc]
      rw [hid]
      exact hInv
  | false =>
      rw [closeW_eq s hc]
      have hnil : sentinelIds (s.pendingRejections.map
          (fun i => (⟨i, .err .closing, .closeK⟩ : Settlement))) = [] := by
        apply sentinelIds_eq_nil
        intro e he
        rcases List.mem_map.1 he with ⟨j, _, rfl⟩
        simp
      constructor
      · simp only [sentinelIds_append, hnil, List.append_nil]
        simp only [stateIds, curIds, List.map_nil, List.append_nil]
        refine hInv.chain.sublist ?_
        have h1 : List.Sublist ((s.current.map Task.id).toList)
            ((s.current.map Task.id).toList ++ s.queue.map Task.id) :=
          List.sublist_append_left _ _
        exact h1.append_left (sentinelIds s.log)
      · intro j hj
        simp only [stateIds, curIds] at hj ⊢
        apply hInv.idsLt
        simp only [stateIds, curIds, List.mem_append]
        left
        simpa using hj
      · intro j hj
        simp at hj
      · intro e he
        rcases List.mem_append.1 he with h | h
        · exact hInv.logLt e h
        · rcases List.mem_map.1 h with ⟨j, hj, rfl⟩
          exact hInv.prLt j hj
      · intro j hj
        simp at hj
      · exact List.nodup_nil
      · exact fun _ => ⟨rfl, rfl⟩
      · intro h
        simp at h

lemma inv_timeoutFire {s : WState} (hInv : Inv s) (i : Nat) :
    Inv (timeoutFire s i) := by
  unfold timeoutFire
  split
  · have hnil : sentinelIds [(⟨i, .err .timedOut, .timeoutK⟩ : Settlement)] = [] :=
      sentinelIds_singleton_ne _ _ _ (by simp)
    constructor
    · simp only [stateIds, curIds, sentinelIds_append, hnil, List.append_nil]
      exact hInv.chain
    · exact hInv.idsLt
    · exact fun j hj => hInv.prLt j (List.mem_of_mem_erase hj)
    · intro e he
      rcases List.mem_append.1 he with h | h
      · exact hInv.logLt e h
      · simp only [List.mem_singleton] at h
        subst h
        exact hInv.prLt i (by assumption)
    · exact fun j hj => hInv.prSub (List.mem_of_mem_erase hj)
    · exact hInv.prNodup.erase _
    · intro h
      rcases hInv.closedState h with ⟨hq, hpr⟩
      exact ⟨hq, by simp [hpr]⟩
    · intro h e he
      rcases List.mem_append.1 he with h1 | h1
      · exact hInv.noCloseK h e h1
      · simp only [List.mem_singleton] at h1
        subst h1
        simp
  · exact hInv

lemma checkIfClosed_none {s : WState} (h : checkIfClosed s = none) :
    s.closed = false := by
  unfold checkIfClosed at h
  cases hcs : s.closed
  · rfl
  · rw [hcs] at h
    simp at h

lemma inv_gated {s : WState} (hInv : Inv s) (act : WState → WState)
    (hact : ∀ s', Inv s' → s'.closed = false → Inv (act s')) :
    Inv (gated s act) := by
  unfold gated
  cases hg : checkIfClosed s with
  | some e => exact inv_settleFresh hInv _ _ (by simp) (by simp)
  | none => exact hact s hInv (checkIfClosed_none hg)

lemma inv_step {s : WState} (hInv : Inv s) (e : Event) : Inv (step s e) := by
  cases e with
  | exec sql ps =>
      exact inv_gated hInv _ (fun s' h hc => inv_enqueueOperation h hc sql ps false)
  | cmd c =>
      exact inv_gated hInv _ (fun s' h hc => inv_enqueueOperation h hc c [] true)
  | line raw =>
      show Inv (if s.closed then s else processLine s raw)
      split
      · exact hInv
      · exact inv_processLine hInv raw
  | stderr chunk =>
      show Inv (if s.closed then s else stderrData s chunk)
      split
      · exact hInv
      · exact ⟨hInv.chain, hInv.idsLt, hInv.prLt, hInv.logLt, hInv.prSub,
          hInv.prNodup, hInv.closedState, hInv.noCloseK⟩
  | fatal => exact inv_handleFatalError hInv
  | close => exact inv_closeW hInv
  | timeout i => exact inv_timeoutFire hInv i

lemma inv_foldl : ∀ (tr : List Event) (s : WState), Inv s → Inv (tr.foldl step s)
  | [], _, h => h
  | e :: tr, s, h => inv_foldl tr (step s e) (inv_step h e)

lemma inv_run (tr : List Event) : Inv (run tr) :=
  inv_foldl tr initState inv_initState

end Invariant

section NoTimeout

/-- Whether an event is a timeout-timer firing. -/
def Event.isTimeoutEv : Event → Bool
  | .timeout _ => true
  | _ => false

/-- A trace without timeout-timer firings (no per-operation timeout was
configured, i.e. the default `timeout = 0`). -/
def noTimeouts (tr : List Event) : Bool := tr.all (fun e => ! e.isTimeoutEv)

/-- Strengthened invariant along timeout-free traces: the pending
rejections are exactly the unsettled tasks' ids, and no callback has
ever been invoked twice — the settlement log holds at most one entry
per operation id. -/
structure NTInv (s : WState) : Prop where
  prEq : s.closed = false → s.pendingRejections = stateIds s
  logNodup : (s.log.map Settlement.id).Nodup
  freshLog : s.closed = false → ∀ i ∈ stateIds s, i ∉ s.log.map Settlement.id

lemma nt_initState : NTInv initState := by
  refine ⟨fun _ => rfl, by simp [initState], ?_⟩
  intro _ i hi
  simp [initState, stateIds, curIds] at hi

lemma map_id_settle_map (is : List Nat) (o : Outcome) (k : SettleKind) :
    (is.map (fun i => (⟨i, o, k⟩ : Settlement))).map Settlement.id = is := by
  induction is with
  | nil => rfl
  | cons i is ih => simp [ih]

lemma map_id_settle_map_task (ts : List Task) (o : Outcome) (k : SettleKind) :
    (ts.map (fun t => (⟨t.id, o, k⟩ : Settlement))).map Settlement.id
      = ts.map Task.id := by
  induction ts with
  | nil => rfl
  | cons t ts ih => simp [ih]

lemma foldl_erase_all : ∀ (ts : List Task) (pr : List Nat),
    pr = ts.map Task.id → pr.Nodup →
    ts.foldl (fun pr t => pr.erase t.id) pr = []
  | [], pr, hpr, _ => hpr
  | t :: ts, pr, hpr, hnd => by
      subst hpr
      simp only [List.map_cons, List.foldl_cons, List.erase_cons_head]
      exact foldl_erase_all ts _ rfl (by simpa using hnd.of_cons)

lemma fatalPrRemainder_eq_nil {s : WState} (hInv : Inv s) (hNT : NTInv s)
    (hc : s.closed = false) : fatalPrRemainder s = [] := by
  have hpr := hNT.prEq hc
  have hnd := hInv.prNodup
  unfold fatalPrRemainder
  cases hcur : s.current with
  | none =>
      apply foldl_erase_all
      · rw [hpr]
        simp [stateIds, curIds, hcur]
      · exact hnd
  | some t =>
      apply foldl_erase_all
      · rw [hpr]
        simp [stateIds, curIds, hcur, List.erase_cons_head]
      · exact hnd.erase _

lemma nt_settleFresh {s : WState} (hInv : Inv s) (hNT : NTInv s)
    (o : Outcome) (k : SettleKind) :
    NTInv { s with nextId := s.nextId + 1, log := s.log ++ [⟨s.nextId, o, k⟩] } := by
  constructor
  · intro hc
    exact hNT.prEq hc
  · rw [List.map_append]
    rw [List.nodup_append]
    refine ⟨hNT.logNodup, by simp, ?_⟩
    intro a ha hb
    simp only [List.map_cons, List.map_nil, List.mem_singleton] at hb
    subst hb
    rcases List.mem_map.1 ha with ⟨e, he, heq⟩
    exact absurd heq (Nat.ne_of_lt (hInv.logLt e he))
  · intro hc i hi
    rw [List.map_append]
    intro hmem
    rcases List.mem_append.1 hmem with h | h
    · exact hNT.freshLog hc i hi h
    · simp only [List.map_cons, List.map_nil, List.mem_singleton] at h
      subst h
      exact absurd rfl (Nat.ne_of_lt (hInv.idsLt _ hi))

lemma queue_ids_nodup {s : WState} (hInv : Inv s) :
    (stateIds s).Nodup := by
  have h := hInv.chain
  have h2 : (stateIds s).Pairwise (· < ·) :=
    h.sublist (List.sublist_append_right _ _)
  exact h2.imp Nat.ne_of_lt

lemma nt_enqueueOperation {s : WState} (hInv : Inv s) (hNT : NTInv s)
    (hc : s.closed = false) (sql : String) (ps : List Value) (isRaw : Bool) :
    NTInv (enqueueOperation s sql ps isRaw) := by
  unfold enqueueOperation
  cases hres : (if isRaw then Except.ok sql else interpolateSQL sql ps) with
  | error msg => exact nt_settleFresh hInv hNT _ _
  | ok itext =>
      constructor
      · intro h2
        rw [maybeProcessNext_pr, maybeProcessNext_stateIds]
        simp only
        rw [hNT.prEq hc]
        simp [stateIds, curIds]
      · rw [maybeProcessNext_log]
        exact hNT.logNodup
      · intro h2 i hi
        rw [maybeProcessNext_stateIds] at hi
        rw [maybeProcessNext_log]
        have hst : stateIds { s with
              nextId := s.nextId + 1,
              pendingRejections := s.pendingRejections ++ [s.nextId],
              queue := s.queue ++ [⟨s.nextId, itext, isRaw⟩] }
            = stateIds s ++ [s.nextId] := by
          simp [stateIds, curIds]
        rw [hst] at hi
        rcases List.mem_append.1 hi with h | h
        · exact hNT.freshLog hc i h
        · have hieq : i = s.nextId := by simpa using h
          subst hieq
          intro hmem
          rcases List.mem_map.1 hmem with ⟨e, he, heq⟩
          exact absurd heq (Nat.ne_of_lt (hInv.logLt e he))

lemma nt_step {s : WState} (hInv : Inv s) (hNT : NTInv s) (e : Event)
    (he : e.isTimeoutEv = false) : NTInv (step s e) := by
  cases e with
  | timeout i => simp [Event.isTimeoutEv] at he
  | stderr chunk =>
      show NTInv (if s.closed then s else stderrData s chunk)
      split
      · exact hNT
      · exact ⟨hNT.prEq, hNT.logNodup, hNT.freshLog⟩
  | fatal =>
      show NTInv (handleFatalError s)
      cases hc : s.closed with
      | true =>
          have hid : handleFatalError s = s := by
            unfold handleFatalError
            simp [hc]
          rw [hid]
          exact hNT
      | false =>
          rw [handleFatalError_eq s hc, fatalPrRemainder_eq_nil hInv hNT hc]
          constructor
          · intro h
            simp at h
          · simp only [List.map_nil, List.append_nil, List.map_append,
              map_id_settle_map, map_id_settle_map_task]
            rw [List.append_assoc, List.nodup_append]
            refine ⟨hNT.logNodup, ?_, ?_⟩
            · exact queue_ids_nodup hInv
            · intro a ha hb
              exact hNT.freshLog hc a hb ha
          · intro h
            simp at h
  | close =>
      show NTInv (closeW s)
      cases hc : s.closed with
      | true =>
          have hid : closeW s = s := by
            unfold closeW
            simp [hc]
          rw [hid]
          exact hNT
      | false =>
          rw [closeW_eq s hc]
          constructor
          · intro h
            simp at h
          · simp only [List.map_append, map_id_settle_map]
            rw [List.nodup_append]
            refine ⟨hNT.logNodup, ?_, ?_⟩
            · rw [hNT.prEq hc]
              exact queue_ids_nodup hInv
            · intro a ha hb
              rw [hNT.prEq hc] at hb
              exact hNT.freshLog hc a hb ha
          · intro h
            simp at h
  | line raw =>
      show NTInv (if s.closed then s else processLine s raw)
      cases hc : s.closed with
      | true => simpa [hc] using hNT
      | false =>
          simp only [hc, if_false, Bool.false_eq_true]
          unfold processLine handleLine
          split
          · unfold finalizeCurrent
            cases hcur : s.current with
            | none => exact hNT
            | some t =>
                have hold : stateIds s = t.id :: s.queue.map Task.id := by
                  simp [stateIds, curIds, hcur]
                have hstep : ∀ o : Outcome, NTInv (maybeProcessNext (settleOp
                    { s with stdoutBuffer := "", stderrBuffer := "", current := none }
                    t.id o .sentinel)) := by
                  intro o
                  have hqNodup : (stateIds s).Nodup := queue_ids_nodup hInv
                  constructor
                  · intro h2
                    rw [maybeProcessNext_pr, maybeProcessNext_stateIds]
                    simp only [settleOp_pr]
                    rw [hNT.prEq hc, hold, List.erase_cons_head]
                    simp [stateIds, curIds]
                  · rw [maybeProcessNext_log]
                    simp only [settleOp_log, List.map_append]
                    rw [List.nodup_append]
                    refine ⟨hNT.logNodup, by simp, ?_⟩
                    intro a ha hb
                    simp only [List.map_cons, List.map_nil, List.mem_singleton] at hb
                    subst hb
                    exact hNT.freshLog hc t.id (by rw [hold]; exact List.mem_cons_self _ _) ha
                  · intro h2 i hi
                    rw [maybeProcessNext_stateIds] at hi
                    rw [maybeProcessNext_log]
                    simp only [settleOp_log, List.map_append]
                    simp only [stateIds, curIds, settleOp_current, settleOp_queue] at hi
                    have hiq : i ∈ s.queue.map Task.id := by simpa using hi
                    intro hmem
                    rcases List.mem_append.1 hmem with h | h
                    · exact hNT.freshLog hc i
                        (by rw [hold]; exact List.mem_cons_of_mem _ hiq) h
                    · simp only [List.map_cons, List.map_nil, List.mem_singleton] at h
                      subst h
                      rw [hold] at hqNodup
                      exact (List.nodup_cons.1 hqNodup).1 hiq
                simp only
                split
                · exact hstep _
                · exact hstep _
          · exact ⟨hNT.prEq, hNT.logNodup, hNT.freshLog⟩
  | exec sql ps =>
      show NTInv (execEv s sql ps)
      unfold execEv gated
      cases hg : checkIfClosed s with
      | some e => exact nt_settleFresh hInv hNT _ _
      | none => exact nt_enqueueOperation hInv hNT (checkIfClosed_none hg) sql ps false
  | cmd c =>
      show NTInv (cmdEv s c)
      unfold cmdEv gated
      cases hg : checkIfClosed s with
      | some e => exact nt_settleFresh hInv hNT _ _
      | none => exact nt_enqueueOperation hInv hNT (checkIfClosed_none hg) c [] true

lemma nt_foldl : ∀ (tr : List Event) (s : WState), Inv s → NTInv s →
    noTimeouts tr = true → NTInv (tr.foldl step s)
  | [], _, _, hNT, _ => hNT
  | e :: tr, s, hInv, hNT, h => by
      have h2 : e.isTimeoutEv = false ∧ noTimeouts tr = true := by
        simpa [noTimeouts, List.all_cons] using h
      exact nt_foldl tr (step s e) (inv_step hInv e)
        (nt_step hInv hNT e h2.1) h2.2

lemma nt_run (tr : List Event) (h : noTimeouts tr = true) : NTInv (run tr) :=
  nt_foldl tr initState inv_initState nt_initState h

end NoTimeout

section ClaimSupport

lemma run_append (tr tr2 : List Event) :
    run (tr ++ tr2) = tr2.foldl step (run tr) := by
  unfold run
  exact List.foldl_append _ _ _ _

lemma closeW_of_closed {s : WState} (h : s.closed = true) : closeW s = s := by
  unfold closeW
  simp [h]

lemma handleFatalError_of_closed {s : WState} (h : s.closed = true) :
    handleFatalError s = s := by
  unfold handleFatalError
  simp [h]

lemma filter_closing_length (pr : List Nat) (i : Nat) :
    ((pr.map (fun j => (⟨j, .err .closing, .closeK⟩ : Settlement))).filter
      (fun e => e.id == i && e.kind == SettleKind.closeK)).length = pr.count i := by
  induction pr with
  | nil => rfl
  | cons j pr ih =>
      simp only [List.map_cons, List.filter_cons]
      by_cases hj : j = i
      · subst hj
        simp [List.count_cons, ih]
      · simp only [List.count_cons]
        have hb : ((⟨j, .err .closing, .closeK⟩ : Settlement).id == i
            && (⟨j, .err .closing, .closeK⟩ : Settlement).kind == SettleKind.closeK) = false := by
          simp [hj]
        rw [hb]
        simp [ih, hj]

lemma filter_noCloseK_nil {l : List Settlement}
    (h : ∀ e ∈ l, e.kind ≠ SettleKind.closeK) (i : Nat) :
    l.filter (fun e => e.id == i && e.kind == SettleKind.closeK) = [] := by
  induction l with
  | nil => rfl
  | cons e es ih =>
      have h1 : (e.kind == SettleKind.closeK) = false := by
        simpa using h e (List.mem_cons_self _ _)
      simp only [List.filter_cons, h1, Bool.and_false]
      exact ih (fun x hx => h x (List.mem_cons_of_mem _ hx))

@[simp] lemma settleOp_stdout (s : WState) (i : Nat) (o : Outcome) (k : SettleKind) :
    (settleOp s i o k).stdoutBuffer = s.stdoutBuffer := rfl

@[simp] lemma settleOp_stderr (s : WState) (i : Nat) (o : Outcome) (k : SettleKind) :
    (settleOp s i o k).stderrBuffer = s.stderrBuffer := rfl

lemma enqueueOperation_log_extend (s : WState) (sql : String) (ps : List Value)
    (isRaw : Bool) :
    ∃ suf, (enqueueOperation s sql ps isRaw).log = s.log ++ suf := by
  unfold enqueueOperation
  cases hres : (if isRaw then Except.ok sql else interpolateSQL sql ps) with
  | error msg => exact ⟨_, rfl⟩
  | ok itext =>
      rw [maybeProcessNext_log]
      exact ⟨[], by simp⟩

lemma finalizeCurrent_log_extend (s : WState) :
    ∃ suf, (finalizeCurrent s).log = s.log ++ suf := by
  unfold finalizeCurrent
  cases s.current with
  | none => exact ⟨[], by simp⟩
  | some t =>
      simp only
      split
      · rw [maybeProcessNext_log]
        exact ⟨_, rfl⟩
      · rw [maybeProcessNext_log]
        exact ⟨_, rfl⟩

lemma step_log_extend (s : WState) (e : Event) :
    ∃ suf, (step s e).log = s.log ++ suf := by
  cases e with
  | exec sql ps =>
      show ∃ suf, (execEv s sql ps).log = s.log ++ suf
      unfold execEv gated
      cases checkIfClosed s with
      | some e => exact ⟨_, rfl⟩
      | none => exact enqueueOperation_log_extend _ _ _ _
  | cmd c =>
      show ∃ suf, (cmdEv s c).log = s.log ++ suf
      unfold cmdEv gated
      cases checkIfClosed s with
      | some e => exact ⟨_, rfl⟩
      | none => exact enqueueOperation_log_extend _ _ _ _
  | line raw =>
      show ∃ suf, (if s.closed then s else processLine s raw).log = s.log ++ suf
      split
      · exact ⟨[], by simp⟩
      · unfold processLine handleLine
        split
        · exact finalizeCurrent_log_extend s
        · exact ⟨[], by simp⟩
  | stderr chunk =>
      show ∃ suf, (if s.closed then s else stderrData s chunk).log = s.log ++ suf
      split
      · exact ⟨[], by simp⟩
      · exact ⟨[], by simp [stderrData]⟩
  | fatal =>
      cases hc : s.closed with
      | true =>
          rw [show step s Event.fatal = handleFatalError s from rfl,
              handleFatalError_of_closed hc]
          exact ⟨[], by simp⟩
      | false =>
          rw [show step s Event.fatal = handleFatalError s from rfl,
              handleFatalError_eq s hc]
          refine ⟨(curIds s).map (fun i => ⟨i, .err .fatalProcess, .fatalK⟩)
              ++ s.queue.map (fun t => ⟨t.id, .err .fatalProcess, .fatalK⟩)
              ++ (fatalPrRemainder s).map (fun i => ⟨i, .err .fatalProcess, .fatalK⟩), ?_⟩
          simp [List.append_assoc]
  | close =>
      cases hc : s.closed with
      | true =>
          rw [show step s Event.close = closeW s from rfl, closeW_of_closed hc]
          exact ⟨[], by simp⟩
      | false =>
          rw [show step s Event.close = closeW s from rfl, closeW_eq s hc]
          exact ⟨_, rfl⟩
  | timeout i =>
      show ∃ suf, (timeoutFire s i).log = s.log ++ suf
      unfold timeoutFire
      split
      · exact ⟨_, rfl⟩
      · exact ⟨[], by simp⟩

lemma foldl_log_extend : ∀ (rest : List Event) (s : WState),
    ∃ suf, (rest.foldl step s).log = s.log ++ suf
  | [], s => ⟨[], by simp⟩
  | e :: rest, s => by
      obtain ⟨suf1, h1⟩ := step_log_extend s e
      obtain ⟨suf2, h2⟩ := foldl_log_extend rest (step s e)
      exact ⟨suf1 ++ suf2, by rw [List.foldl_cons, h2, h1, List.append_assoc]⟩

lemma find?_append_of_some {α : Type} (p : α → Bool) :
    ∀ (l1 l2 : List α) (e : α), l1.find? p = some e →
      (l1 ++ l2).find? p = some e
  | [], _, _, h => by simp at h
  | a :: l1, l2, e, h => by
      by_cases hp : p a = true
      · rw [List.find?_cons_of_pos _ hp] at h
        rw [List.cons_append, List.find?_cons_of_pos _ hp]
        exact h
      · rw [List.find?_cons_of_neg _ (by simpa using hp)] at h
        rw [List.cons_append, List.find?_cons_of_neg _ (by simpa using hp)]
        exact find?_append_of_some p l1 l2 e h

lemma promiseOutcome_extend {l suf : List Settlement} {i : Nat} {o : Outcome}
    (h : promiseOutcome l i = some o) : promiseOutcome (l ++ suf) i = some o := by
  unfold promiseOutcome at h ⊢
  cases hf : l.find? (fun e => e.id == i) with
  | none =>
      rw [hf] at h
      cases h
  | some e =>
      rw [hf] at h
      rw [find?_append_of_some _ l suf e hf]
      exact h

end ClaimSupport

section Claims

/-- **C1** — FIFO finalization: along every event trace (any mix of
`exec`/`query`-style interpolated statements, raw commands such as the
internal mode-set, output lines, faults, closes and timeouts), the
operations finalized by sentinel-driven completion in `#finalizeCurrent`
are settled in strictly increasing id order — ids are assigned in
enqueue order, so finalization order equals enqueue order and no
request overtakes another; at most one request is in flight at a time
(`current` is a single optional slot filled only by `#maybeProcessNext`
from the queue head). -/
theorem claim_C1_fifo_finalization (tr : List Event) :
    (sentinelIds (run tr).log).Pairwise (· < ·) :=
  (inv_run tr).chain.sublist (List.sublist_append_left _ _)

/-- **C3** — fatal-error cascade: in a trace without timeout firings,
appending a fatal process event (spawn failure, unexpected exit,
transport error) rejects the current request (if any) and every queued
request with the fatal-process error, empties the queue and the pending
rejections, and the settlement log never invokes a callback twice for
the same operation: every request enqueued before the fault is settled
at most once. -/
theorem claim_C3_fatal_rejects_once (tr : List Event)
    (hnt : noTimeouts tr = true) :
    (((run (tr ++ [Event.fatal])).log.map Settlement.id).Nodup) ∧
    ((run tr).closed = false →
      (∀ t : Task, (run tr).current = some t →
        (⟨t.id, .err .fatalProcess, .fatalK⟩ : Settlement) ∈ (run (tr ++ [Event.fatal])).log) ∧
      (∀ t ∈ (run tr).queue,
        (⟨t.id, .err .fatalProcess, .fatalK⟩ : Settlement) ∈ (run (tr ++ [Event.fatal])).log) ∧
      (run (tr ++ [Event.fatal])).current = none ∧
      (run (tr ++ [Event.fatal])).queue = [] ∧
      (run (tr ++ [Event.fatal])).pendingRejections = []) := by
  have hrun : run (tr ++ [Event.fatal]) = handleFatalError (run tr) := by
    rw [run_append]
    rfl
  have hnt2 : noTimeouts (tr ++ [Event.fatal]) = true := by
    rw [noTimeouts, List.all_append]
    rw [noTimeouts] at hnt
    rw [hnt]
    rfl
  constructor
  · exact (nt_run _ hnt2).logNodup
  · intro hc
    rw [hrun, handleFatalError_eq _ hc]
    refine ⟨?_, ?_, rfl, rfl, rfl⟩
    · intro t ht
      simp only [List.append_assoc, List.mem_append]
      right
      left
      exact List.mem_map_of_mem _ (by simp [curIds, ht])
    · intro t ht
      simp only [List.append_assoc, List.mem_append]
      right
      right
      left
      exact List.mem_map_of_mem _ ht

/-- Witness for C3 at a concrete trace: two statements enqueued, then a
fatal process fault. -/
theorem claim_C3_fatal_rejects_once_witness :
    noTimeouts [Event.exec "A" [], Event.exec "B" []] = true ∧
    ((((run ([Event.exec "A" [], Event.exec "B" []] ++ [Event.fatal])).log.map Settlement.id).Nodup) ∧
    ((run [Event.exec "A" [], Event.exec "B" []]).closed = false →
      (∀ t : Task, (run [Event.exec "A" [], Event.exec "B" []]).current = some t →
        (⟨t.id, .err .fatalProcess, .fatalK⟩ : Settlement)
          ∈ (run ([Event.exec "A" [], Event.exec "B" []] ++ [Event.fatal])).log) ∧
      (∀ t ∈ (run [Event.exec "A" [], Event.exec "B" []]).queue,
        (⟨t.id, .err .fatalProcess, .fatalK⟩ : Settlement)
          ∈ (run ([Event.exec "A" [], Event.exec "B" []] ++ [Event.fatal])).log) ∧
      (run ([Event.exec "A" [], Event.exec "B" []] ++ [Event.fatal])).current = none ∧
      (run ([Event.exec "A" [], Event.exec "B" []] ++ [Event.fatal])).queue = [] ∧
      (run ([Event.exec "A" [], Event.exec "B" []] ++ [Event.fatal])).pendingRejections = [])) :=
  ⟨by decide, claim_C3_fatal_rejects_once [Event.exec "A" [], Event.exec "B" []] (by decide)⟩

/-- **C9** — `close()` is idempotent: a second `close` event is a
strict no-op (the resulting state, settlement log included, is
unchanged, so no error and no duplicate rejection is delivered), and
the first `close` rejects each still-unsettled pending or current
request (exactly the members of `#pendingRejections`) with the closing
error exactly once. -/
theorem claim_C9_close_idempotent (tr : List Event) :
    run (tr ++ [Event.close, Event.close]) = run (tr ++ [Event.close]) ∧
    (∀ i ∈ (run tr).pendingRejections,
      ((run (tr ++ [Event.close])).log.filter
        (fun e => e.id == i && e.kind == SettleKind.closeK)).length = 1) := by
  have h1 : run (tr ++ [Event.close]) = closeW (run tr) := by
    rw [run_append]
    rfl
  have h2 : run (tr ++ [Event.close, Event.close]) = closeW (closeW (run tr)) := by
    rw [run_append]
    rfl
  constructor
  · rw [h1, h2]
    exact closeW_of_closed (closeW_closed _)
  · intro i hi
    rw [h1]
    cases hc : (run tr).closed with
    | true =>
        rcases (inv_run tr).closedState hc with ⟨_, hpr⟩
        rw [hpr] at hi
        cases hi
    | false =>
        rw [closeW_eq _ hc]
        simp only [List.filter_append, List.length_append]
        rw [filter_noCloseK_nil ((inv_run tr).noCloseK hc) i]
        rw [filter_closing_length]
        simp only [List.length_nil, Nat.zero_add]
        exact List.count_eq_one_of_mem (inv_run tr).prNodup hi

/-- Witness for C9 at a concrete trace: one statement enqueued, then
`close()` twice. -/
theorem claim_C9_close_idempotent_witness :
    run ([Event.exec "A" []] ++ [Event.close, Event.close])
        = run ([Event.exec "A" []] ++ [Event.close]) ∧
    (0 ∈ (run [Event.exec "A" []]).pendingRejections ∧
      ((run ([Event.exec "A" []] ++ [Event.close])).log.filter
        (fun e => e.id == 0 && e.kind == SettleKind.closeK)).length = 1) :=
  ⟨(claim_C9_close_idempotent [Event.exec "A" []]).1,
   by decide,
   (claim_C9_close_idempotent [Event.exec "A" []]).2 0 (by decide)⟩

/-- **C4** — closed gate: once the `closed` flag is set (by `close()`
or a fatal error), any `exec`/`query`/`batch` call fails immediately
through `#checkIfClosed` with the closed-wrapper error: the only state
change is the logged rejection of the fresh operation (and the id
counter); nothing is written to the child process, no process is
spawned, and the queue, the current slot and the buffers are untouched. -/
theorem claim_C4_closed_gate (s : WState) (sql : String) (ps : List Value)
    (h : s.closed = true) :
    execEv s sql ps = { s with
        nextId := s.nextId + 1,
        log := s.log ++ [⟨s.nextId, .err .closedWrapper, .gateK⟩] } ∧
    (execEv s sql ps).writes = s.writes ∧
    (execEv s sql ps).queue = s.queue ∧
    (execEv s sql ps).current = s.current ∧
    (execEv s sql ps).procAlive = s.procAlive := by
  have hgate : execEv s sql ps = { s with
      nextId := s.nextId + 1,
      log := s.log ++ [⟨s.nextId, .err .closedWrapper, .gateK⟩] } := by
    unfold execEv gated checkIfClosed
    simp [h]
  refine ⟨hgate, ?_, ?_, ?_, ?_⟩ <;> rw [hgate]

/-- Witness for C4: a wrapper closed by `close()` rejects a subsequent
`exec` without touching queue or writes. -/
theorem claim_C4_closed_gate_witness :
    (run [Event.close]).closed = true ∧
    (execEv (run [Event.close]) "INSERT INTO t VALUES (1)" []
      = { run [Event.close] with
          nextId := (run [Event.close]).nextId + 1,
          log := (run [Event.close]).log
            ++ [⟨(run [Event.close]).nextId, .err .closedWrapper, .gateK⟩] } ∧
     (execEv (run [Event.close]) "INSERT INTO t VALUES (1)" []).writes
        = (run [Event.close]).writes ∧
     (execEv (run [Event.close]) "INSERT INTO t VALUES (1)" []).queue
        = (run [Event.close]).queue ∧
     (execEv (run [Event.close]) "INSERT INTO t VALUES (1)" []).current
        = (run [Event.close]).current ∧
     (execEv (run [Event.close]) "INSERT INTO t VALUES (1)" []).procAlive
        = (run [Event.close]).procAlive) :=
  ⟨by decide,
   claim_C4_closed_gate (run [Event.close]) "INSERT INTO t VALUES (1)" [] (by decide)⟩

/-- **C7** — orphaned finalization after a timeout is a graceful no-op
for the caller: once the per-request timeout has rejected the promise
(its first logged settlement is the timeout error), any continuation of
the trace — in particular the sentinel arriving for that request —
leaves the delivered outcome unchanged (the log is append-only and a
promise keeps its first settlement), and the sentinel finalization
itself merely consumes the orphaned output: it clears both accumulators
and proceeds, with no error path. -/
theorem claim_C7_orphan_finalization_noop (tr rest : List Event) (i : Nat)
    (h : promiseOutcome (run tr).log i = some (.err .timedOut)) :
    promiseOutcome (run (tr ++ rest)).log i = some (.err .timedOut) ∧
    (∃ suf, (run (tr ++ rest)).log = (run tr).log ++ suf) ∧
    (∀ (s : WState) (t : Task), s.current = some t →
      (finalizeCurrent s).stdoutBuffer = "" ∧
      (finalizeCurrent s).stderrBuffer = "") := by
  obtain ⟨suf, hsuf⟩ := foldl_log_extend rest (run tr)
  rw [← run_append] at hsuf
  refine ⟨?_, ⟨suf, hsuf⟩, ?_⟩
  · rw [hsuf]
    exact promiseOutcome_extend h
  · intro s t hcur
    unfold finalizeCurrent
    rw [hcur]
    simp only
    split
    · rw [maybeProcessNext_stdout, maybeProcessNext_stderr]
      simp
    · rw [maybeProcessNext_stdout, maybeProcessNext_stderr]
      simp

/-- Witness for C7: a request times out while in flight; its sentinel
later arrives, resolves against the already-settled promise, and the
delivered outcome stays the timeout error. -/
theorem claim_C7_orphan_finalization_noop_witness :
    promiseOutcome (run [Event.exec "A" [], Event.timeout 0]).log 0
        = some (.err .timedOut) ∧
    (promiseOutcome (run ([Event.exec "A" [], Event.timeout 0]
        ++ [Event.line "out", Event.line "__END__"])).log 0
        = some (.err .timedOut) ∧
     (∃ suf, (run ([Event.exec "A" [], Event.timeout 0]
        ++ [Event.line "out", Event.line "__END__"])).log
        = (run [Event.exec "A" [], Event.timeout 0]).log ++ suf) ∧
     (∀ (s : WState) (t : Task), s.current = some t →
       (finalizeCurrent s).stdoutBuffer = "" ∧
       (finalizeCurrent s).stderrBuffer = "")) :=
  ⟨by decide,
   claim_C7_orphan_finalization_noop [Event.exec "A" [], Event.timeout 0]
     [Event.line "out", Event.line "__END__"] 0 (by decide)⟩

/-- **C8** — blank query result: when the raw text a successful
statement produced is empty or all whitespace, `query`'s
post-processing returns the empty row sequence (`.ok []`) — not `null`
and not an error — for every JSON parser. -/
theorem claim_C8_blank_query_yields_empty {α : Type}
    (parseJson : String → Option (List α)) (raw : String)
    (h : raw.data.all isJsWs = true) :
    queryPostprocess parseJson raw = .ok [] := by
  have htrim : jsTrim raw = "" := by
    unfold jsTrim jsTrimL
    have h1 : raw.data.dropWhile isJsWs = [] :=
      List.dropWhile_eq_nil_iff.mpr (by simpa [List.all_eq_true] using h)
    rw [h1]
    rfl
  unfold queryPostprocess
  simp [htrim]

/-- Witness for C8 at the whitespace-only text `" \n\t "`. -/
theorem claim_C8_blank_query_yields_empty_witness :
    (" \n\t ".data.all isJsWs = true) ∧
    queryPostprocess (fun _ => (none : Option (List Nat))) " \n\t " = .ok [] :=
  ⟨by decide, claim_C8_blank_query_yields_empty _ _ (by decide)⟩

end Claims

section ParamSupport

lemma interpolateGo_error : ∀ (cs : List Char) (ps : List Value),
    ps.length < cs.count '?' →
    interpolateGo cs ps = .error "Too few parameters provided"
  | [], ps, h => by simp at h
  | c :: cs, ps, h => by
      by_cases hc : c = '?'
      · subst hc
        cases ps with
        | nil =>
            unfold interpolateGo
            simp
        | cons p tl =>
            have h2 : tl.length < cs.count '?' := by
              simp only [List.count_cons, List.length_cons] at h
              simp only [beq_self_eq_true, if_true] at h
              omega
            unfold interpolateGo
            rw [if_pos rfl]
            simp only
            rw [interpolateGo_error cs tl h2]
            rfl
      · have h2 : ps.length < cs.count '?' := by
          simp only [List.count_cons] at h
          have hb : (c == '?') = false := by simpa using hc
          rw [hb] at h
          simpa using h
        unfold interpolateGo
        rw [if_neg hc, interpolateGo_error cs ps h2]
        rfl

end ParamSupport

section ClaimsCorrected

/-- **C5** counterexample: `interpolateSQL` has a fast path returning
the template unchanged whenever the parameter list is empty — even when
`'?'` placeholders remain — so an `exec` with placeholders and no
parameters is not rejected: no settlement is logged and the statement,
placeholders included, is written to the child process. -/
theorem claim_C5_counterexample :
    interpolateSQL "INSERT INTO t VALUES (?, ?)" []
      = .ok "INSERT INTO t VALUES (?, ?)" ∧
    (run [Event.exec "INSERT INTO t VALUES (?, ?)" []]).log = [] ∧
    (run [Event.exec "INSERT INTO t VALUES (?, ?)" []]).writes
      = ["INSERT INTO t VALUES (?, ?);" ++ EOL ++ END_SIGNAL ++ EOL] :=
  ⟨rfl, rfl, rfl⟩

/-- **C5** (amended) — for a non-raw statement with a NONEMPTY parameter
list containing fewer parameters than placeholders, interpolation
throws "Too few parameters provided" and the request is rejected with
that parameter error inside the promise executor; the resulting state
equality shows the statement is never queued or written, and the rest
of the wrapper state is untouched, so the queue continues serving
subsequent requests normally.  (With an EMPTY parameter list the fast
path skips the check and the template passes through unchanged.) -/
theorem claim_C5_amended_param_error (s : WState) (sql : String)
    (ps : List Value) (h1 : s.closed = false) (h2 : s.procAlive = true)
    (h3 : ps ≠ []) (h4 : ps.length < countQMarks sql) :
    interpolateSQL sql ps = .error "Too few parameters provided" ∧
    execEv s sql ps = { s with
        nextId := s.nextId + 1,
        log := s.log
          ++ [⟨s.nextId, .err (.paramError "Too few parameters provided"), .paramK⟩] } := by
  have herr : interpolateSQL sql ps = .error "Too few parameters provided" := by
    unfold interpolateSQL
    rw [if_neg (fun hh => h3 (List.length_eq_zero.mp hh))]
    exact interpolateGo_error _ _ h4
  refine ⟨herr, ?_⟩
  unfold execEv gated
  have hchk : checkIfClosed s = none := by
    unfold checkIfClosed
    simp [h1, h2]
  rw [hchk]
  show enqueueOperation s sql ps false = _
  unfold enqueueOperation
  rw [if_neg (by simp), herr]
  rfl

/-- Witness for the amended C5: `INSERT INTO t VALUES (?, ?)` with one
parameter supplied. -/
theorem claim_C5_amended_param_error_witness :
    initState.closed = false ∧ initState.procAlive = true ∧
    ([Value.vint 1] ≠ []) ∧
    ([Value.vint 1].length < countQMarks "INSERT INTO t VALUES (?, ?)") ∧
    (interpolateSQL "INSERT INTO t VALUES (?, ?)" [Value.vint 1]
        = .error "Too few parameters provided" ∧
     execEv initState "INSERT INTO t VALUES (?, ?)" [Value.vint 1]
        = { initState with
            nextId := initState.nextId + 1,
            log := initState.log
              ++ [⟨initState.nextId,
                   .err (.paramError "Too few parameters provided"), .paramK⟩] }) :=
  ⟨rfl, rfl, by decide, by decide,
   claim_C5_amended_param_error initState "INSERT INTO t VALUES (?, ?)"
     [Value.vint 1] rfl rfl (by decide) (by decide)⟩

lemma step_line_a {s : WState} (hc : s.closed = false) :
    (step s (Event.line "a")).stdoutBuffer = s.stdoutBuffer ++ "a" ++ EOL ∧
    (step s (Event.line "a")).closed = false := by
  have hstep : step s (Event.line "a")
      = { s with stdoutBuffer := s.stdoutBuffer ++ "a" ++ EOL } := by
    show (if s.closed = true then s else processLine s "a") = _
    rw [hc]
    simp only [Bool.false_eq_true, if_false]
    unfold processLine handleLine
    rw [show jsTrim "a" = "a" from by decide]
    rw [if_neg (by decide), hc]
  rw [hstep]
  exact ⟨rfl, hc⟩

lemma step_stderr_b {s : WState} (hc : s.closed = false) :
    (step s (Event.stderr "b")).stderrBuffer = s.stderrBuffer ++ "b" ∧
    (step s (Event.stderr "b")).closed = false := by
  have hstep : step s (Event.stderr "b")
      = { s with stderrBuffer := s.stderrBuffer ++ "b" } := by
    show (if s.closed = true then s else stderrData s "b") = _
    rw [hc]
    simp only [Bool.false_eq_true, if_false]
    unfold stderrData
    rw [hc]
  rw [hstep]
  exact ⟨rfl, hc⟩

lemma run_lines_growth : ∀ n : Nat,
    (run (List.replicate n (Event.line "a"))).closed = false ∧
    (run (List.replicate n (Event.line "a"))).stdoutBuffer.length = 2 * n
  | 0 => ⟨rfl, rfl⟩
  | n + 1 => by
      obtain ⟨hc, hlen⟩ := run_lines_growth n
      rw [List.replicate_succ', run_append]
      simp only [List.foldl_cons, List.foldl_nil]
      obtain ⟨hbuf, hcl⟩ := step_line_a (s := run (List.replicate n (Event.line "a"))) hc
      refine ⟨hcl, ?_⟩
      rw [hbuf]
      simp only [String.length_append, hlen,
        show ("a".length) = 1 from rfl, show (EOL.length) = 1 from rfl]
      omega

lemma run_stderr_growth : ∀ n : Nat,
    (run (List.replicate n (Event.stderr "b"))).closed = false ∧
    (run (List.replicate n (Event.stderr "b"))).stderrBuffer.length = n
  | 0 => ⟨rfl, rfl⟩
  | n + 1 => by
      obtain ⟨hc, hlen⟩ := run_stderr_growth n
      rw [List.replicate_succ', run_append]
      simp only [List.foldl_cons, List.foldl_nil]
      obtain ⟨hbuf, hcl⟩ := step_stderr_b (s := run (List.replicate n (Event.stderr "b"))) hc
      refine ⟨hcl, ?_⟩
      rw [hbuf]
      simp only [String.length_append, hlen,
        show ("b".length) = 1 from rfl]

/-- **C6** counterexample: the accumulators admit NO fixed cap and drop
nothing — the retained stdout accumulator after `n` ordinary output
lines `"a"` is exactly `2 * n` characters, and the stderr accumulator
after `n` chunks `"b"` is exactly `n` characters, as functions of `n`;
both exceed any candidate cap `C` at `n = C + 1`, refuting the claimed
bound. -/
theorem claim_C6_counterexample :
    (fun n => (run (List.replicate n (Event.line "a"))).stdoutBuffer.length)
      = (fun n => 2 * n) ∧
    (fun n => (run (List.replicate n (Event.stderr "b"))).stderrBuffer.length)
      = (fun n => n) := by
  constructor
  · funext n
    exact (run_lines_growth n).2
  · funext n
    exact (run_stderr_growth n).2

/-- **C6** (amended) — the accumulators are unbounded: while the
wrapper is open, every delivered non-sentinel line appends the whole
trimmed line plus the terminator to the stdout accumulator, and every
stderr chunk is appended whole to the stderr accumulator; no cap is
applied and no old content is dropped (the buffers are only cleared at
finalization). -/
theorem claim_C6_amended_unbounded (s : WState) (raw chunk : String)
    (h1 : s.closed = false) (h2 : jsTrim raw ∉ END_MARKERS) :
    (step s (Event.line raw)).stdoutBuffer
        = s.stdoutBuffer ++ jsTrim raw ++ EOL ∧
    (step s (Event.stderr chunk)).stderrBuffer = s.stderrBuffer ++ chunk := by
  constructor
  · show (if s.closed = true then s else processLine s raw).stdoutBuffer = _
    rw [h1]
    simp only [Bool.false_eq_true, if_false]
    unfold processLine handleLine
    rw [if_neg h2]
  · show (if s.closed = true then s else stderrData s chunk).stderrBuffer = _
    rw [h1]
    simp only [Bool.false_eq_true, if_false]
    rfl

/-- Witness for the amended C6 on the fresh wrapper with line `"a"` and
chunk `"b"`. -/
theorem claim_C6_amended_unbounded_witness :
    initState.closed = false ∧ jsTrim "a" ∉ END_MARKERS ∧
    ((step initState (Event.line "a")).stdoutBuffer
        = initState.stdoutBuffer ++ jsTrim "a" ++ EOL ∧
     (step initState (Event.stderr "b")).stderrBuffer
        = initState.stderrBuffer ++ "b") :=
  ⟨rfl, by decide, claim_C6_amended_unbounded initState "a" "b" rfl (by decide)⟩

/-- **C2** counterexample: the stdout reader delivers `#handleLine` the
line ALREADY trimmed on both sides, so what is appended is the trimmed
line (not the raw line) plus the terminator; and `#finalizeCurrent`
applies `.trim()` — which strips leading as well as trailing
whitespace — to both accumulators, so an error text `" e"` is delivered
as `"e"`, not as the trailing-trimmed `" e"`. -/
theorem claim_C2_counterexample :
    (processLine initState "  x").stdoutBuffer = "x" ++ EOL ∧
    "x" ++ EOL ≠ "  x" ++ EOL ∧
    (run [Event.exec "SELECT 1" [], Event.stderr " e", Event.line "__END__"]).log
      = [⟨0, .err (.statementError "e"), .sentinel⟩] ∧
    "e" ≠ " e" :=
  ⟨rfl, by decide, rfl, by decide⟩

/-- **C2** (amended) — line protocol with surrounding trimming: for
every delivered line, if its surrounding-trimmed form is a recognized
sentinel marker the current operation is finalized, otherwise the
TRIMMED line plus a terminator is appended to the stdout accumulator
(and nothing is settled); at finalization both accumulators are trimmed
of SURROUNDING (leading and trailing) whitespace, the request is
rejected with the statement error carrying the trimmed stderr text if
that text is non-empty and resolved with the trimmed stdout text
otherwise, and both accumulators are cleared. -/
theorem claim_C2_amended_line_protocol (s : WState) (raw : String) (t : Task)
    (hcur : s.current = some t) :
    (jsTrim raw ∉ END_MARKERS →
      (processLine s raw).stdoutBuffer = s.stdoutBuffer ++ jsTrim raw ++ EOL ∧
      (processLine s raw).log = s.log) ∧
    (jsTrim raw ∈ END_MARKERS →
      (processLine s raw).stdoutBuffer = "" ∧
      (processLine s raw).stderrBuffer = "" ∧
      (jsTrim s.stderrBuffer = "" →
        (processLine s raw).log
          = s.log ++ [⟨t.id, .ok (jsTrim s.stdoutBuffer), .sentinel⟩]) ∧
      (jsTrim s.stderrBuffer ≠ "" →
        (processLine s raw).log
          = s.log
            ++ [⟨t.id, .err (.statementError (jsTrim s.stderrBuffer)), .sentinel⟩])) := by
  constructor
  · intro h
    unfold processLine handleLine
    rw [if_neg h]
    exact ⟨rfl, rfl⟩
  · intro h
    unfold processLine handleLine
    rw [if_pos h]
    unfold finalizeCurrent
    rw [hcur]
    simp only
    refine ⟨?_, ?_, ?_, ?_⟩
    · split
      · rw [maybeProcessNext_stdout]
        rfl
      · rw [maybeProcessNext_stdout]
        rfl
    · split
      · rw [maybeProcessNext_stderr]
        rfl
      · rw [maybeProcessNext_stderr]
        rfl
    · intro herr
      rw [if_pos herr, maybeProcessNext_log]
      rfl
    · intro herr
      rw [if_neg herr, maybeProcessNext_log]
      rfl

/-- Witness for the amended C2: a wrapper with one in-flight statement,
receiving first an ordinary line and then (from a sibling state with
buffered stderr) a sentinel. -/
theorem claim_C2_amended_line_protocol_witness :
    (run [Event.exec "SELECT 1" []]).current = some ⟨0, "SELECT 1", false⟩ ∧
    (jsTrim " row " ∉ END_MARKERS →
      (processLine (run [Event.exec "SELECT 1" []]) " row ").stdoutBuffer
        = (run [Event.exec "SELECT 1" []]).stdoutBuffer ++ jsTrim " row " ++ EOL ∧
      (processLine (run [Event.exec "SELECT 1" []]) " row ").log
        = (run [Event.exec "SELECT 1" []]).log) ∧
    (jsTrim " row " ∈ END_MARKERS →
      (processLine (run [Event.exec "SELECT 1" []]) " row ").stdoutBuffer = "" ∧
      (processLine (run [Event.exec "SELECT 1" []]) " row ").stderrBuffer = "" ∧
      (jsTrim (run [Event.exec "SELECT 1" []]).stderrBuffer = "" →
        (processLine (run [Event.exec "SELECT 1" []]) " row ").log
          = (run [Event.exec "SELECT 1" []]).log
            ++ [⟨(0 : Nat), .ok (jsTrim (run [Event.exec "SELECT 1" []]).stdoutBuffer), .sentinel⟩]) ∧
      (jsTrim (run [Event.exec "SELECT 1" []]).stderrBuffer ≠ "" →
        (processLine (run [Event.exec "SELECT 1" []]) " row ").log
          = (run [Event.exec "SELECT 1" []]).log
            ++ [⟨(0 : Nat),
                 .err (.statementError (jsTrim (run [Event.exec "SELECT 1" []]).stderrBuffer)),
                 .sentinel⟩])) :=
  ⟨by decide,
   claim_C2_amended_line_protocol (run [Event.exec "SELECT 1" []]) " row "
     ⟨0, "SELECT 1", false⟩ (by decide)⟩

end ClaimsCorrected

section FormatSupport

lemma collapseWsL_no_adjacent_ws : ∀ l : List Char,
    (collapseWsL l).Chain' (fun a b => ¬(isJsWs a = true ∧ isJsWs b = true))
  | [] => List.chain'_nil
  | c :: rest => by
      have ih := collapseWsL_no_adjacent_ws rest
      unfold collapseWsL
      by_cases hw : isJsWs c = true
      · rw [if_pos hw]
        cases rest with
        | nil => exact List.chain'_singleton _
        | cons r0 rest2 =>
            show List.Chain' _ (if isJsWs r0 = true
              then collapseWsL (r0 :: rest2)
              else ' ' :: collapseWsL (r0 :: rest2))
            by_cases hr : isJsWs r0 = true
            · rw [if_pos hr]
              exact ih
            · rw [if_neg hr]
              have hhead : collapseWsL (r0 :: rest2)
                  = r0 :: collapseWsL rest2 := by
                conv_lhs => unfold collapseWsL
                rw [if_neg hr]
              rw [hhead] at ih ⊢
              exact List.chain'_cons.2 ⟨fun hcon => hr hcon.2, ih⟩
      · rw [if_neg hw]
        rw [List.chain'_cons']
        refine ⟨?_, ih⟩
        intro y _
        intro hcon
        exact hw hcon.1

lemma collapseWsL_ws_is_space : ∀ l : List Char,
    ∀ x ∈ collapseWsL l, isJsWs x = true → x = ' '
  | [] => by intro x hx; cases hx
  | c :: rest => by
      have ih := collapseWsL_ws_is_space rest
      intro x hx hwx
      unfold collapseWsL at hx
      by_cases hw : isJsWs c = true
      · rw [if_pos hw] at hx
        cases rest with
        | nil =>
            simp only [List.mem_singleton] at hx
            exact hx
        | cons r0 rest2 =>
            have hx2 : x ∈ (if isJsWs r0 = true
                then collapseWsL (r0 :: rest2)
                else ' ' :: collapseWsL (r0 :: rest2)) := hx
            by_cases hr : isJsWs r0 = true
            · rw [if_pos hr] at hx2
              exact ih x hx2 hwx
            · rw [if_neg hr] at hx2
              rcases List.mem_cons.1 hx2 with h | h
              · exact h
              · exact ih x h hwx
      · rw [if_neg hw] at hx
        rcases List.mem_cons.1 hx with h | h
        · subst h
          exact absurd hwx hw
        · exact ih x h hwx

lemma collapseWsL_ends_semi : ∀ l : List Char,
    ∃ l0, collapseWsL (l ++ [';']) = l0 ++ [';']
  | [] => ⟨[], rfl⟩
  | d :: l => by
      obtain ⟨l0, h0⟩ := collapseWsL_ends_semi l
      rw [List.cons_append]
      unfold collapseWsL
      by_cases hd : isJsWs d = true
      · rw [if_pos hd]
        cases l with
        | nil => exact ⟨[' '], by decide⟩
        | cons e l2 =>
            rw [List.cons_append]
            show ∃ l1, (if isJsWs e = true
                then collapseWsL (e :: (l2 ++ [';']))
                else ' ' :: collapseWsL (e :: (l2 ++ [';'])))
              = l1 ++ [';']
            rw [List.cons_append] at h0
            by_cases he : isJsWs e = true
            · rw [if_pos he]
              exact ⟨l0, h0⟩
            · rw [if_neg he]
              exact ⟨' ' :: l0, by rw [h0]; rfl⟩
      · rw [if_neg hd]
        exact ⟨d :: l0, by rw [h0]; rfl⟩

end FormatSupport

section ClaimC10

/-- **C10** — statement normalization before dispatch: for every
non-raw statement, `#formatSQLStatement` trims the text, ensures a
single terminating semicolon, and replaces every maximal run of
whitespace by one space — the formatted output never contains two
adjacent whitespace characters, every whitespace character in it is a
plain space, and it always ends in `';'`.  This applies to the whole
interpolated text, quoted string literals included: the end-to-end run
shows a string parameter containing two consecutive spaces is written
to the child with a single space. -/
theorem claim_C10_format_normalizes_whitespace :
    (∀ sql : String,
      ((formatSQLStatement sql).data.Chain'
        (fun a b => ¬(isJsWs a = true ∧ isJsWs b = true))) ∧
      (∀ x ∈ (formatSQLStatement sql).data, isJsWs x = true → x = ' ') ∧
      (∃ l0, (formatSQLStatement sql).data = l0 ++ [';'])) ∧
    formatSQLStatement "  INSERT INTO t\n VALUES ('a  b');;  "
      = "INSERT INTO t VALUES ('a b');" ∧
    (run [Event.exec "INSERT INTO t VALUES (?)" [Value.vstr "a  b"]]).writes
      = ["INSERT INTO t VALUES ('a b');" ++ EOL ++ END_SIGNAL ++ EOL] := by
  refine ⟨?_, by decide, rfl⟩
  intro sql
  refine ⟨?_, ?_, ?_⟩
  · exact collapseWsL_no_adjacent_ws _
  · exact collapseWsL_ws_is_space _
  · exact collapseWsL_ends_semi _

end ClaimC10

end SQLiteWrapperJS
